import Mathlib

/-!
Verification of the URL-parts translator of `azure-storage-file-go`
(`2017-07-29/azfile/parsing_urls.go`).

Modelling conventions:
* Go strings are modelled as `List Char`; each character stands for one byte
  of the Go string (all inputs considered here are ASCII, where the two
  notions coincide byte for byte).
* `url.URL` is modelled by the four fields the translator reads or writes
  (`Scheme`, `Host`, `Path`, `RawQuery`); the remaining fields are untouched
  pass-through data.
* Go's `url.Values` (`map[string][]string`) is modelled as an association
  list with pairwise-distinct keys.  Go map iteration order is
  unspecified; the model iterates in key insertion order (first
  occurrence in the query string).  No theorem below depends on the
  iteration order of a map holding two distinct keys that fold to the
  same lowercase form.
-/

namespace AzFile

/-- Coerce a Lean string literal to the byte-list string model. -/
def str (s : String) : List Char := s.data

/-- `strings.ToLower` restricted to ASCII (all keys considered are ASCII). -/
def toLowerStr (s : List Char) : List Char := s.map Char.toLower

/-- First index of character `c`, i.e. `strings.Index(s, string(c))`,
    as an `Option` instead of `-1`. -/
def idxOf? (c : Char) : List Char → Option Nat
  | [] => none
  | x :: xs => if x = c then some 0 else (idxOf? c xs).map (· + 1)

/-- Last index of character `c` (Go `last(s, c)` helper in `net`). -/
def lastIdxOf? (c : Char) (s : List Char) : Option Nat :=
  (idxOf? c s.reverse).map (fun i => s.length - 1 - i)

/-- `strings.Index(s, string(c))` combined with the two slicings
    `s[:i]` and `s[i+1:]` that every use site performs:
    `none` when `c` does not occur, otherwise the parts before and
    after its first occurrence. -/
def splitAtChar? (c : Char) : List Char → Option (List Char × List Char)
  | [] => none
  | x :: xs =>
      if x = c then some ([], xs)
      else match splitAtChar? c xs with
           | none => none
           | some (a, b) => some (x :: a, b)

/-- `if path[0] == '/' { path = path[1:] }`. -/
def stripLeadSlash : List Char → List Char
  | '/' :: r => r
  | p => p

/-! ### Go `net` package: IP literal parsing (net/ip.go, Go 1.9 era)

Only validity (`ParseIP(s) != nil`) matters to the translator, so the
functions below return `Bool`/`Option` rather than the byte arrays. -/

/-- Decimal-digit run parser `dtoi`: returns the value and the rest of the
    string, or `none` when there is no digit or the value reaches the
    `big = 0xFFFFFF` cap (Go returns `ok = false` in those cases). -/
def dtoiLoop (n : Nat) : List Char → Option (Nat × List Char)
  | [] => some (n, [])
  | c :: cs =>
      if c.isDigit then
        let n' := n * 10 + (c.toNat - 48)
        if n' ≥ 0xFFFFFF then none else dtoiLoop n' cs
      else some (n, c :: cs)

/-- Go `dtoi`: at least one digit is required. -/
def dtoi : List Char → Option (Nat × List Char)
  | [] => none
  | c :: cs => if c.isDigit then dtoiLoop 0 (c :: cs) else none

/-- Hex digit test used by `xtoi`. -/
def isHexCh (c : Char) : Bool :=
  c.isDigit || ('a' ≤ c && c ≤ 'f') || ('A' ≤ c && c ≤ 'F')

/-- Hex digit value. -/
def hexVal (c : Char) : Nat :=
  if c.isDigit then c.toNat - 48
  else if 'a' ≤ c && c ≤ 'f' then c.toNat - 97 + 10
  else c.toNat - 65 + 10

/-- Hex-digit run parser `xtoi`, with the same `big` overflow cap. -/
def xtoiLoop (n : Nat) : List Char → Option (Nat × List Char)
  | [] => some (n, [])
  | c :: cs =>
      if isHexCh c then
        let n' := n * 16 + hexVal c
        if n' ≥ 0xFFFFFF then none else xtoiLoop n' cs
      else some (n, c :: cs)

/-- Go `xtoi`: at least one hex digit is required. -/
def xtoi : List Char → Option (Nat × List Char)
  | [] => none
  | c :: cs => if isHexCh c then xtoiLoop 0 (c :: cs) else none

/-- Go `parseIPv4` octet loop: `k` octets still to read, a `'.'` expected
    before every octet except the first (already handled by the caller
    structure: a dot is consumed after each octet except the last). -/
def ipv4Octets : Nat → List Char → Option (List Char)
  | 0, s => some s
  | k + 1, s =>
      match dtoi s with
      | none => none
      | some (n, rest) =>
          if n > 0xFF then none
          else if k = 0 then some rest
          else match rest with
               | '.' :: rest2 => ipv4Octets k rest2
               | _ => none

/-- `parseIPv4(s) != nil`: exactly four dot-separated decimal octets ≤ 255
    consuming the whole string. -/
def parseIPv4valid (s : List Char) : Bool :=
  match ipv4Octets 4 s with
  | some [] => true
  | _ => false

/-- Exit path of the `parseIPv6` loop: the whole string must be consumed;
    fewer than 16 bytes requires an ellipsis, a full 16 bytes forbids it. -/
def v6finish (i : Nat) (ell : Bool) (s : List Char) : Bool :=
  s.isEmpty && (if i < 16 then ell else !ell)

/-- One-to-one transcription of the `parseIPv6` parsing loop
    (`for i < IPv6len`), validity only.  `fuel` is `(16 - i) / 2` at every
    call, so running out of fuel coincides with the loop condition
    `i < IPv6len` turning false. -/
def v6loop : Nat → Nat → Bool → List Char → Bool
  | 0, i, ell, s => v6finish i ell s
  | fuel + 1, i, ell, s =>
      match xtoi s with
      | none => false
      | some (n, rest) =>
          if n > 0xFFFF then false
          else
            match rest with
            | '.' :: _ =>
                -- possibly a trailing IPv4 address
                if !ell && i ≠ 12 then false
                else if i + 4 > 16 then false
                else if parseIPv4valid s then v6finish (i + 4) ell []
                else false
            | [] => v6finish (i + 2) ell []
            | ':' :: [] => false
            | ':' :: ':' :: rest3 =>
                if ell then false
                else if rest3.isEmpty then v6finish (i + 2) true []
                else v6loop fuel (i + 2) true rest3
            | ':' :: rest2 => v6loop fuel (i + 2) ell rest2
            | _ => false

/-- `parseIPv6(s, false)` validity: optional leading `::`, then the loop. -/
def parseIPv6valid (s : List Char) : Bool :=
  match s with
  | ':' :: ':' :: rest =>
      if rest.isEmpty then true else v6loop 8 0 true rest
  | _ => v6loop 8 0 false s

/-- `net.ParseIP`: scan for the first `'.'` or `':'` and dispatch; the scan
    carries the original string. -/
def parseIPscan (orig : List Char) : List Char → Bool
  | [] => false
  | c :: cs =>
      if c = '.' then parseIPv4valid orig
      else if c = ':' then parseIPv6valid orig
      else parseIPscan orig cs

/-- `net.ParseIP(s) != nil`. -/
def parseIPvalid (s : List Char) : Bool := parseIPscan s s

/-- `net.SplitHostPort`: returns `(host, port)` on success, `none` on any
    of the `AddrError` paths.  The port starts after the last colon; a
    leading `'['` requires the bracket form `[host]:port`. -/
def splitHostPortGo (hp : List Char) : Option (List Char × List Char) :=
  match lastIdxOf? ':' hp with
  | none => none
  | some i =>
      match hp with
      | '[' :: _ =>
          (match idxOf? ']' hp with
           | none => none
           | some e =>
               if e + 1 = hp.length then none
               else if e + 1 = i then
                 if (idxOf? '[' (hp.drop 1)).isSome then none
                 else if (idxOf? ']' (hp.drop (e + 1))).isSome then none
                 else some ((hp.drop 1).take (e - 1), hp.drop (i + 1))
               else none)
      | _ =>
          let host := hp.take i
          if (idxOf? ':' host).isSome then none
          else if (idxOf? '[' hp).isSome then none
          else if (idxOf? ']' hp).isSome then none
          else some (host, hp.drop (i + 1))

/-- `isIPEndpointStyle` from `parsing_urls.go`: when the host contains a
    colon it is split as `host:port` first; classification succeeds when
    no error occurred and the (possibly stripped) host is an IP literal. -/
def isIPEndpointStyle (host : List Char) : Bool :=
  if (idxOf? ':' host).isSome then
    match splitHostPortGo host with
    | none => false
    | some (h, _) => parseIPvalid h
  else parseIPvalid host

example : isIPEndpointStyle (str "10.0.0.1:443") = true := by decide
example : isIPEndpointStyle (str "[::1]:8080") = true := by decide
example : isIPEndpointStyle (str "account.service.example.com") = false := by decide
example : isIPEndpointStyle (str "10.0.0.1") = true := by decide
example : isIPEndpointStyle (str "[::1]") = false := by decide
example : parseIPv6valid (str "::ffff:10.0.0.1") = true := by decide
example : parseIPv6valid (str "1:2:3:4:5:6:7:8") = true := by decide
example : parseIPv6valid (str "1:2:3:4:5:6:7:8:9") = false := by decide
example : parseIPv6valid (str "::") = true := by decide
example : parseIPv6valid (str ":::") = false := by decide

/-! ### Go `net/url` package: query parsing and encoding (Go 1.9 era) -/

/-- `url.QueryUnescape` (mode `encodeQueryComponent`): `%XX` becomes the
    byte `XX`, `'+'` becomes a space, a `'%'` not followed by two hex
    digits is an error. -/
def queryUnescape : List Char → Option (List Char)
  | [] => some []
  | '%' :: a :: b :: rest =>
      if isHexCh a && isHexCh b then
        (queryUnescape rest).map (Char.ofNat (hexVal a * 16 + hexVal b) :: ·)
      else none
  | '%' :: _ => none
  | '+' :: rest => (queryUnescape rest).map (' ' :: ·)
  | c :: rest => (queryUnescape rest).map (c :: ·)

/-- Upper-case hex digit of a value below 16. -/
def hexUpper (n : Nat) : Char :=
  if n < 10 then Char.ofNat (48 + n) else Char.ofNat (65 + n - 10)

/-- `url.QueryEscape` on one character (one byte): alphanumerics and
    `-_.~` are kept, a space becomes `'+'`, everything else `%XX`. -/
def escapeChar (c : Char) : List Char :=
  if c.isAlphanum || c = '-' || c = '_' || c = '.' || c = '~' then [c]
  else if c = ' ' then ['+']
  else ['%', hexUpper (c.toNat / 16 % 16), hexUpper (c.toNat % 16)]

/-- `url.QueryEscape`. -/
def queryEscape (s : List Char) : List Char := s.flatMap escapeChar

/-- Split the raw query on `'&'` and `';'` (Go 1.9 `parseQuery` uses
    `strings.IndexAny(key, "&;")`); `acc` is the piece read so far,
    reversed. -/
def splitSepsAux (acc : List Char) : List Char → List (List Char)
  | [] => [acc.reverse]
  | c :: cs =>
      if c = '&' || c = ';' then acc.reverse :: splitSepsAux [] cs
      else splitSepsAux (c :: acc) cs

/-- Split one `key=value` piece at the first `'='`; a piece without `'='`
    keeps an empty value. -/
def cutEq (s : List Char) : List Char × List Char :=
  match splitAtChar? '=' s with
  | none => (s, [])
  | some (k, v) => (k, v)

/-- The sequence of decoded `key, value` pairs of `url.parseQuery`, in
    query-string order; empty pieces and pieces whose key or value fails
    to unescape are skipped (Go `continue`s on them, collecting the
    error it then discards at the `u.Query()` call site). -/
def parseQuery (raw : List Char) : List (List Char × List Char) :=
  (splitSepsAux [] raw).filterMap fun piece =>
    if piece.isEmpty then none
    else
      match queryUnescape (cutEq piece).1, queryUnescape (cutEq piece).2 with
      | some k, some v => some (k, v)
      | _, _ => none

/-- The model of `url.Values`: association list with distinct keys. -/
abbrev Values := List (List Char × List (List Char))

/-- `m[key] = append(m[key], value)`: append `v` to the entry of `k`,
    or add a new entry. -/
def insertPair (m : Values) (k v : List Char) : Values :=
  match m with
  | [] => [(k, [v])]
  | (k0, vs) :: rest =>
      if k0 = k then (k0, vs ++ [v]) :: rest
      else (k0, vs) :: insertPair rest k v

/-- Build the `url.Values` map from the decoded pair sequence. -/
def toValues (pairs : List (List Char × List Char)) : Values :=
  pairs.foldl (fun m p => insertPair m p.1 p.2) []

/-- `u.Query()`: parse the raw query, discarding the error. -/
def goQuery (raw : List Char) : Values := toValues (parseQuery raw)

/-- Lexicographic byte order on strings (`sort.Strings` comparison). -/
def ltStr : List Char → List Char → Bool
  | [], [] => false
  | [], _ :: _ => true
  | _ :: _, [] => false
  | a :: as, b :: bs =>
      if a.toNat < b.toNat then true
      else if b.toNat < a.toNat then false
      else ltStr as bs

/-- Insert an entry into a key-sorted entry list. -/
def insertSorted (e : List Char × List (List Char)) :
    Values → Values
  | [] => [e]
  | f :: fs => if ltStr e.1 f.1 then e :: f :: fs else f :: insertSorted e fs

/-- Entries sorted by key (`sort.Strings(keys)` in `Values.Encode`). -/
def sortKeys (m : Values) : Values := m.foldr insertSorted []

/-- Join non-empty pieces with `'&'` between consecutive ones. -/
def joinAmp : List (List Char) → List Char
  | [] => []
  | [x] => x
  | x :: xs => x ++ '&' :: joinAmp xs

/-- `url.Values.Encode`: keys sorted, each value emitted as
    `escape(k)=escape(v)`, pieces joined by `'&'`. -/
def encodeValues (m : Values) : List Char :=
  joinAmp ((sortKeys m).flatMap fun e =>
    e.2.map fun v => queryEscape e.1 ++ '=' :: queryEscape v)

/-- `caseInsensitiveValues.Get`: first entry whose lowercased key matches
    the lowercased search key (map iteration modelled in insertion
    order). -/
def caseInsensitiveValuesGet (m : Values) (key : List Char) :
    Option (List (List Char)) :=
  let k := toLowerStr key
  match m with
  | [] => none
  | (k0, vs) :: rest =>
      if toLowerStr k0 = k then some vs
      else caseInsensitiveValuesGet rest key

/-- `delete(m, k)`: remove the entry with exactly key `k`. -/
def delKey (m : Values) (k : List Char) : Values :=
  m.filter fun e => !(e.1 = k : Bool)

/-! ### The SAS (authorization) collaborator

The SAS sub-parser lives in another file of the repository
(`sas_query_params.go`) that is not part of the sources given here. -/

/-- Modelled from the spec: missing source `sas_query_params.go`
    (`newSASQueryParameters` / `SASQueryParameters`).  Per the spec, the
    authorization sub-parser "consumes the remaining query mapping plus a
    strictness flag, returns a structured authorization-parameter set and
    (implicitly) removes its own keys from the mapping it was given"; the
    parameter set is an "opaque token set".  The recognized key names are
    the standard Azure storage SAS query keys (representative list). -/
def sasKeyNames : List (List Char) :=
  [str "sv", str "ss", str "srt", str "spr", str "st", str "se",
   str "sip", str "si", str "sr", str "sp", str "sig"]

/-- Modelled from the spec: the structured authorization-parameter set,
    kept as the captured key→values associations so that its serialization
    can re-emit them (the spec's round-trip invariant requires the
    serialization to preserve the captured associations). -/
structure SASQueryParameters where
  captured : Values
  deriving DecidableEq, Repr

/-- Modelled from the spec: extraction of the authorization parameters.
    Recognition is by lowercased key name; when `deleteFromValues` is set
    the recognized keys are removed from the mapping.  Returns the pair
    (parameter set, remaining mapping) in place of Go's in-place map
    mutation. -/
def newSASQueryParameters (m : Values) (deleteFromValues : Bool) :
    SASQueryParameters × Values :=
  (⟨m.filter fun e => toLowerStr e.1 ∈ sasKeyNames⟩,
   if deleteFromValues then m.filter fun e => toLowerStr e.1 ∉ sasKeyNames
   else m)

/-- Modelled from the spec: serialization of the authorization-parameter
    set, re-emitting the captured associations (key-sorted, like every
    query serialization in this package). -/
def SASQueryParameters.Encode (s : SASQueryParameters) : List Char :=
  encodeValues s.captured

/-! ### The translator itself (`parsing_urls.go`) -/

/-- The fields of `url.URL` the translator reads and writes. -/
structure URLRec where
  Scheme : List Char
  Host : List Char
  Path : List Char
  RawQuery : List Char
  deriving DecidableEq, Repr

/-- `FileURLParts` (field `SAS` and the two lowercase fields included). -/
structure FileURLParts where
  Scheme : List Char
  Host : List Char
  ShareName : List Char
  DirectoryOrFilePath : List Char
  ShareSnapshot : List Char
  SAS : SASQueryParameters
  UnparsedParams : List Char
  accountName : List Char
  isIPEndpointStyle : Bool
  deriving DecidableEq, Repr

/-- The path block of `NewFileURLParts`: returns
    `(accountName, ShareName, DirectoryOrFilePath)`. -/
def parsePath (ip : Bool) (p : List Char) : List Char × List Char × List Char :=
  if p = [] then ([], [], [])
  else
    let q := stripLeadSlash p
    if ip then
      match splitAtChar? '/' q with
      | none => (q, [], [])
      | some (a, rest) =>
          match splitAtChar? '/' rest with
          | none => (a, rest, [])
          | some (s, d) => (a, s, d)
    else
      match splitAtChar? '/' q with
      | none => ([], q, [])
      | some (s, d) => ([], s, d)

/-- `NewFileURLParts`.  The snapshot value is `snapshotStr[0]`, modelled
    as `headD []`; every value list produced by `goQuery` is non-empty
    (proved below), so the default is never taken, mirroring that the Go
    indexing cannot panic. -/
def NewFileURLParts (u : URLRec) : FileURLParts :=
  let ipStyle := isIPEndpointStyle u.Host
  let pp := parsePath ipStyle u.Path
  let paramsMap := goQuery u.RawQuery
  let snapRes := caseInsensitiveValuesGet paramsMap (str "sharesnapshot")
  let snap := match snapRes with
              | some vs => vs.headD []
              | none => []
  let paramsMap1 := match snapRes with
                    | some _ => delKey paramsMap (str "sharesnapshot")
                    | none => paramsMap
  let sasPair := newSASQueryParameters paramsMap1 true
  { Scheme := u.Scheme
    Host := u.Host
    ShareName := pp.2.1
    DirectoryOrFilePath := pp.2.2
    ShareSnapshot := snap
    SAS := sasPair.1
    UnparsedParams := encodeValues sasPair.2
    accountName := pp.1
    isIPEndpointStyle := ipStyle }

/-- `FileURLParts.URL`. -/
def FileURLParts.URL (up : FileURLParts) : URLRec :=
  let path1 : List Char :=
    if up.isIPEndpointStyle = true ∧ up.accountName ≠ [] then
      '/' :: up.accountName
    else []
  let path :=
    if up.ShareName ≠ [] then
      path1 ++ '/' :: up.ShareName ++
        (if up.DirectoryOrFilePath ≠ [] then '/' :: up.DirectoryOrFilePath
         else [])
    else path1
  let rq1 := up.UnparsedParams
  let rq2 :=
    if up.ShareSnapshot ≠ [] then
      (if rq1.length > 0 then rq1 ++ ['&'] else rq1) ++
        str "sharesnapshot=" ++ up.ShareSnapshot
    else rq1
  let sas := up.SAS.Encode
  let rq3 :=
    if sas ≠ [] then
      (if rq2.length > 0 then rq2 ++ ['&'] else rq2) ++ sas
    else rq2
  { Scheme := up.Scheme, Host := up.Host, Path := path, RawQuery := rq3 }

/-! ### Spec-side vocabulary -/

/-- The spec's classification procedure, in its own words: strip an
    optional trailing `:port` (per the `host:port` grammar, which also
    removes the brackets of a bracketed IPv6 host), keep the host as is
    when it has no colon at all, then test for an IP literal. -/
def stripOptionalPort (h : List Char) : Option (List Char) :=
  if (idxOf? ':' h).isSome then (splitHostPortGo h).map Prod.fst
  else some h

/-- Follows the spec's words: IP-endpoint style iff the port-stripped
    host text parses as a valid IPv4 or IPv6 literal. -/
def specIPEndpointStyle (h : List Char) : Bool :=
  match stripOptionalPort h with
  | some rest => parseIPvalid rest
  | none => false

/-- The multiset of decoded `key → value` associations of a raw query,
    with keys case-folded (the claims allow key casing of parameters to
    change). -/
def queryAssocMultiset (raw : List Char) :
    Multiset (List Char × List Char) :=
  ((parseQuery raw).map fun p => (toLowerStr p.1, p.2) : List _)

/-- The first `/`-delimited segment of a path remainder. -/
def firstSeg (p : List Char) : List Char := p.takeWhile fun x => x != '/'

/-- Everything after the first `/` of a path remainder (empty when there
    is no `/`). -/
def afterFirstSeg (p : List Char) : List Char :=
  (p.dropWhile fun x => x != '/').drop 1

/-- Query segments joined by `&`, absent (empty) segments contributing
    no separator. -/
def joinNonEmptyAmp (xs : List (List Char)) : List Char :=
  joinAmp (xs.filter fun s => !s.isEmpty)

example :
    (NewFileURLParts
      ⟨str "https", str "account.service.example.com",
       str "/myshare/dir/file.txt", str "ShareSnapshot=snap&foo=bar"⟩) =
    { Scheme := str "https"
      Host := str "account.service.example.com"
      ShareName := str "myshare"
      DirectoryOrFilePath := str "dir/file.txt"
      ShareSnapshot := str "snap"
      SAS := ⟨[]⟩
      UnparsedParams := str "ShareSnapshot=snap&foo=bar"
      accountName := []
      isIPEndpointStyle := false } := by decide

example :
    (FileURLParts.URL
      (NewFileURLParts
        ⟨str "https", str "account.example.com", str "/myshare",
         str "ShareSnapshot=snap"⟩)).RawQuery =
    str "ShareSnapshot=snap&sharesnapshot=snap" := by decide

example :
    (NewFileURLParts
      ⟨str "https", str "10.0.0.1:443",
       str "/myaccount/myshare/dir/file.txt", str "sv=2017&sig=abc"⟩) =
    { Scheme := str "https"
      Host := str "10.0.0.1:443"
      ShareName := str "myshare"
      DirectoryOrFilePath := str "dir/file.txt"
      ShareSnapshot := []
      SAS := ⟨[(str "sv", [str "2017"]), (str "sig", [str "abc"])]⟩
      UnparsedParams := []
      accountName := str "myaccount"
      isIPEndpointStyle := true } := by decide

/-! ### Supporting lemmas -/

theorem sharesnapshotSeg_ne_nil (v : List Char) :
    str "sharesnapshot=" ++ v ≠ [] := by
  intro h
  exact absurd (List.append_eq_nil.mp h).1 (by decide)

/-- Both branches of the named-host split leave `accountName` empty. -/
theorem parsePath_false_fst (p : List Char) : (parsePath false p).1 = [] := by
  unfold parsePath
  by_cases hp : p = []
  · simp [hp]
  · simp only [hp, if_neg, if_false, Bool.false_eq_true, ite_false]
    cases h : splitAtChar? '/' (stripLeadSlash p) with
    | none => simp
    | some v => simp

/-- `splitAtChar?` finds nothing exactly when `dropWhile` consumes the
    whole string. -/
theorem splitAtChar_eq_none {c : Char} :
    ∀ {s : List Char}, s.dropWhile (fun x => x != c) = [] →
      splitAtChar? c s = none := by
  intro s
  induction s with
  | nil => intro _; rfl
  | cons y ys ih =>
      intro h
      rw [List.dropWhile_cons] at h
      by_cases hyc : y = c
      · simp [hyc] at h
      · simp only [bne_iff_ne, ne_eq, hyc, not_false_eq_true, if_true] at h
        simp [splitAtChar?, hyc, ih h]

/-- `splitAtChar?` splits into the `takeWhile` part and the tail of the
    `dropWhile` part. -/
theorem splitAtChar_eq_some {c : Char} :
    ∀ {s x : List Char} {y : Char},
      s.dropWhile (fun x => x != c) = y :: x →
      splitAtChar? c s = some (s.takeWhile (fun x => x != c), x) := by
  intro s
  induction s with
  | nil => intro x y h; simp at h
  | cons z zs ih =>
      intro x y h
      rw [List.dropWhile_cons] at h
      by_cases hzc : z = c
      · simp only [hzc, bne_self_eq_false, Bool.false_eq_true, if_false] at h
        cases h
        simp [splitAtChar?, hzc, List.takeWhile_cons]
      · simp only [bne_iff_ne, ne_eq, hzc, not_false_eq_true, if_true] at h
        simp [splitAtChar?, hzc, List.takeWhile_cons, ih h]

/-- A character that does not occur is never found. -/
theorem splitAtChar_of_not_mem {c : Char} :
    ∀ {s : List Char}, c ∉ s → splitAtChar? c s = none := by
  intro s
  induction s with
  | nil => intro _; rfl
  | cons y ys ih =>
      intro h
      have hyc : y ≠ c := fun he => h (he ▸ List.mem_cons_self y ys)
      have hys : c ∉ ys := fun hm => h (List.mem_cons_of_mem y hm)
      simp [splitAtChar?, hyc, ih hys]

/-- Splitting at the first separator after a separator-free part. -/
theorem splitAtChar_append_cons {c : Char} :
    ∀ {s : List Char} (t : List Char), c ∉ s →
      splitAtChar? c (s ++ c :: t) = some (s, t) := by
  intro s
  induction s with
  | nil => intro t _; simp [splitAtChar?]
  | cons y ys ih =>
      intro t h
      have hyc : y ≠ c := fun he => h (he ▸ List.mem_cons_self y ys)
      have hys : c ∉ ys := fun hm => h (List.mem_cons_of_mem y hm)
      simp [splitAtChar?, hyc, ih t hys]

/-- All entries of `insertPair m k v` keep non-empty value lists. -/
theorem insertPair_values_nonempty :
    ∀ (m : Values), (∀ e ∈ m, e.2 ≠ []) → ∀ (k v : List Char),
      ∀ e ∈ insertPair m k v, e.2 ≠ [] := by
  intro m
  induction m with
  | nil =>
      intro _ k v e he
      simp only [insertPair, List.mem_singleton] at he
      subst he
      simp
  | cons f fs ih =>
      intro hm k v e he
      by_cases hk : f.1 = k
      · simp only [insertPair, hk, if_true] at he
        rcases List.mem_cons.mp he with h1 | h1
        · subst h1; simp
        · exact hm e (List.mem_cons_of_mem f h1)
      · simp only [insertPair, hk, if_false] at he
        rcases List.mem_cons.mp he with h1 | h1
        · subst h1; exact hm f (List.mem_cons_self f fs)
        · exact ih (fun e he => hm e (List.mem_cons_of_mem f he)) k v e h1

/-- Folding `insertPair` over any pair list keeps value lists non-empty. -/
theorem foldl_insertPair_values_nonempty :
    ∀ (ps : List (List Char × List Char)) (m : Values),
      (∀ e ∈ m, e.2 ≠ []) →
      ∀ e ∈ ps.foldl (fun m p => insertPair m p.1 p.2) m, e.2 ≠ []
  | [], _, hm => hm
  | p :: ps, m, hm =>
      foldl_insertPair_values_nonempty ps _
        (insertPair_values_nonempty m hm p.1 p.2)

/-! ### Claims -/

/-- Claim C1 (failing input for the round-trip guarantee): for the input
    URL `https://account.example.com/myshare?ShareSnapshot=snap`,
    rebuilding the parsed parts preserves scheme, host and path but the
    rebuilt query carries the snapshot association twice (once in
    `UnparsedParams` under the original casing, once re-emitted in
    lowercase), so the multiset of query key→value associations is not
    preserved. -/
theorem C1_roundTrip_multiset_violation :
    (FileURLParts.URL (NewFileURLParts
       ⟨str "https", str "account.example.com", str "/myshare",
        str "ShareSnapshot=snap"⟩)).Scheme = str "https" ∧
    (FileURLParts.URL (NewFileURLParts
       ⟨str "https", str "account.example.com", str "/myshare",
        str "ShareSnapshot=snap"⟩)).Host = str "account.example.com" ∧
    (FileURLParts.URL (NewFileURLParts
       ⟨str "https", str "account.example.com", str "/myshare",
        str "ShareSnapshot=snap"⟩)).Path = str "/myshare" ∧
    (FileURLParts.URL (NewFileURLParts
       ⟨str "https", str "account.example.com", str "/myshare",
        str "ShareSnapshot=snap"⟩)).RawQuery =
      str "ShareSnapshot=snap&sharesnapshot=snap" ∧
    queryAssocMultiset
      (FileURLParts.URL (NewFileURLParts
        ⟨str "https", str "account.example.com", str "/myshare",
         str "ShareSnapshot=snap"⟩)).RawQuery ≠
    queryAssocMultiset (str "ShareSnapshot=snap") := by
  decide

/-- Claim C2 (failing input): the query `ShareSnapshot=snap&foo=bar`
    (non-lowercase casing of the reserved key) sets `ShareSnapshot` to
    `snap` via the case-insensitive lookup, but because the code deletes
    only the exact lowercase key `sharesnapshot`, the original-cased key
    survives into `UnparsedParams` — it is not "removed in all casings"
    as the claim (and the code's own comment) state. -/
theorem C2_snapshot_key_not_removed :
    (NewFileURLParts
       ⟨str "https", str "account.example.com", [],
        str "ShareSnapshot=snap&foo=bar"⟩).ShareSnapshot = str "snap" ∧
    (NewFileURLParts
       ⟨str "https", str "account.example.com", [],
        str "ShareSnapshot=snap&foo=bar"⟩).UnparsedParams =
      str "ShareSnapshot=snap&foo=bar" := by
  decide

/-- Claim C3: the host classification agrees everywhere with the spec's
    procedure (strip an optional trailing `:port`, then test for an IPv4
    or IPv6 literal), and in particular classifies `10.0.0.1:443` and
    `[::1]:8080` as IP-endpoint style and
    `account.service.example.com` as named-host style. -/
theorem C3_ip_endpoint_classification :
    (∀ h : List Char, isIPEndpointStyle h = specIPEndpointStyle h) ∧
    isIPEndpointStyle (str "10.0.0.1:443") = true ∧
    isIPEndpointStyle (str "[::1]:8080") = true ∧
    isIPEndpointStyle (str "account.service.example.com") = false := by
  refine ⟨fun h => ?_, by decide, by decide, by decide⟩
  unfold isIPEndpointStyle specIPEndpointStyle stripOptionalPort
  by_cases hc : (idxOf? ':' h).isSome
  · simp only [hc, if_true]
    cases splitHostPortGo h with
    | none => rfl
    | some v => rfl
  · simp only [hc, if_false, Bool.false_eq_true]

/-- Claim C6 (counterexample): for the caller-mutated parts value with an
    empty `ShareName` and `DirectoryOrFilePath = "dir"`, the rebuilt path
    is empty — contrary to the claim, a non-empty `DirectoryOrFilePath`
    does not appear in the built path when `ShareName` is empty. -/
theorem C6_counterexample :
    (FileURLParts.URL
       ⟨str "https", str "host.example.com", [], str "dir", [],
        ⟨[]⟩, [], [], false⟩).Path = [] ∧
    (str "dir" : List Char) ≠ [] := by
  decide

/-- Claim C6 (amended): the rebuilt path is `/accountName` (only for
    IP-endpoint style with non-empty account) followed, when `ShareName`
    is non-empty, by `/shareName` and then `/directoryOrFilePath` when
    that is non-empty; a non-empty `DirectoryOrFilePath` is appended only
    inside the non-empty-`ShareName` case. -/
theorem C6_amended_path_equation (up : FileURLParts) :
    (FileURLParts.URL up).Path =
      (if up.isIPEndpointStyle = true ∧ up.accountName ≠ [] then
         '/' :: up.accountName
       else []) ++
      (if up.ShareName ≠ [] then
         '/' :: up.ShareName ++
           (if up.DirectoryOrFilePath ≠ [] then
              '/' :: up.DirectoryOrFilePath
            else [])
       else []) := by
  unfold FileURLParts.URL
  by_cases h1 : up.isIPEndpointStyle = true ∧ up.accountName ≠ [] <;>
    by_cases h2 : up.ShareName ≠ [] <;>
      simp [h1, h2]

/-- Claim C7: the rebuilt raw query is exactly the `&`-join of the
    non-empty segments among, in this fixed order: the unparsed
    parameters, the `sharesnapshot=<value>` marker (present iff
    `ShareSnapshot` is non-empty), and the serialized SAS parameters. -/
theorem C7_rawQuery_concatenation (up : FileURLParts) :
    (FileURLParts.URL up).RawQuery =
      joinNonEmptyAmp
        [up.UnparsedParams,
         if up.ShareSnapshot ≠ [] then
           str "sharesnapshot=" ++ up.ShareSnapshot
         else [],
         up.SAS.Encode] := by
  unfold FileURLParts.URL joinNonEmptyAmp
  by_cases h1 : up.UnparsedParams = [] <;>
    by_cases h2 : up.ShareSnapshot = [] <;>
      by_cases h3 : up.SAS.Encode = [] <;>
        simp [h1, h2, h3, joinAmp, List.length_pos,
              sharesnapshotSeg_ne_nil, List.isEmpty_iff,
              List.append_assoc]

/-- Claim C9: `accountName` can be non-empty only in IP-endpoint style —
    parsing a URL classified as named-host style leaves it empty. -/
theorem C9_account_only_ip (u : URLRec)
    (h : (NewFileURLParts u).isIPEndpointStyle = false) :
    (NewFileURLParts u).accountName = [] := by
  simp only [NewFileURLParts] at h ⊢
  rw [h]
  exact parsePath_false_fst u.Path

/-- Witness for C9 at the concrete named-host input
    `https://account.service.example.com/myshare?a=b`. -/
theorem C9_account_only_ip_witness :
    (NewFileURLParts
       ⟨str "https", str "account.service.example.com", str "/myshare",
        str "a=b"⟩).accountName = [] :=
  C9_account_only_ip
    ⟨str "https", str "account.service.example.com", str "/myshare",
     str "a=b"⟩ (by decide)

/-- Claim C4: for an IP-endpoint-style URL with a non-empty path, after
    stripping one leading `/`, the first `/`-delimited segment becomes
    `accountName`, the second (if any) becomes `ShareName`, and
    everything after the second `/` — not re-split — becomes
    `DirectoryOrFilePath`. -/
theorem C4_ip_path_segmentation (u : URLRec)
    (hip : isIPEndpointStyle u.Host = true) (hne : u.Path ≠ []) :
    (NewFileURLParts u).accountName = firstSeg (stripLeadSlash u.Path) ∧
    (NewFileURLParts u).ShareName =
      firstSeg (afterFirstSeg (stripLeadSlash u.Path)) ∧
    (NewFileURLParts u).DirectoryOrFilePath =
      afterFirstSeg (afterFirstSeg (stripLeadSlash u.Path)) := by
  simp only [NewFileURLParts]
  rw [hip]
  unfold parsePath
  rw [if_neg hne, if_pos rfl]
  cases hd : (stripLeadSlash u.Path).dropWhile (fun x => x != '/') with
  | nil =>
      rw [splitAtChar_eq_none hd]
      have htw : (stripLeadSlash u.Path).takeWhile (fun x => x != '/') =
          stripLeadSlash u.Path := by
        have h := List.takeWhile_append_dropWhile
          (p := fun x => x != '/') (l := stripLeadSlash u.Path)
        rw [hd, List.append_nil] at h
        exact h
      refine ⟨?_, ?_, ?_⟩ <;> simp [firstSeg, afterFirstSeg, hd, htw]
  | cons z r =>
      rw [splitAtChar_eq_some hd]
      have hafter : afterFirstSeg (stripLeadSlash u.Path) = r := by
        simp [afterFirstSeg, hd]
      cases hd2 : r.dropWhile (fun x => x != '/') with
      | nil =>
          have e2 := splitAtChar_eq_none hd2
          have htw2 : r.takeWhile (fun x => x != '/') = r := by
            have h := List.takeWhile_append_dropWhile
              (p := fun x => x != '/') (l := r)
            rw [hd2, List.append_nil] at h
            exact h
          refine ⟨?_, ?_, ?_⟩ <;>
            simp [e2, firstSeg, afterFirstSeg, hafter, hd, hd2, htw2]
      | cons w t =>
          have e2 := splitAtChar_eq_some hd2
          refine ⟨?_, ?_, ?_⟩ <;>
            simp [e2, firstSeg, afterFirstSeg, hafter, hd, hd2]

/-- Witness for C4 at `https://10.0.0.1:443/myaccount/myshare/dir/file.txt`. -/
theorem C4_ip_path_segmentation_witness :
    (NewFileURLParts
       ⟨str "https", str "10.0.0.1:443",
        str "/myaccount/myshare/dir/file.txt", []⟩).accountName =
      str "myaccount" ∧
    (NewFileURLParts
       ⟨str "https", str "10.0.0.1:443",
        str "/myaccount/myshare/dir/file.txt", []⟩).ShareName =
      str "myshare" ∧
    (NewFileURLParts
       ⟨str "https", str "10.0.0.1:443",
        str "/myaccount/myshare/dir/file.txt", []⟩).DirectoryOrFilePath =
      str "dir/file.txt" :=
  C4_ip_path_segmentation
    ⟨str "https", str "10.0.0.1:443",
     str "/myaccount/myshare/dir/file.txt", []⟩ (by decide) (by decide)

/-- Claim C5: for a named-host URL with a non-empty path, after stripping
    one leading `/`, the first `/`-delimited segment becomes `ShareName`
    and the remainder after the first `/` becomes
    `DirectoryOrFilePath`. -/
theorem C5_named_path_segmentation (u : URLRec)
    (hip : isIPEndpointStyle u.Host = false) (hne : u.Path ≠ []) :
    (NewFileURLParts u).ShareName = firstSeg (stripLeadSlash u.Path) ∧
    (NewFileURLParts u).DirectoryOrFilePath =
      afterFirstSeg (stripLeadSlash u.Path) := by
  simp only [NewFileURLParts]
  rw [hip]
  unfold parsePath
  rw [if_neg hne]
  simp only [Bool.false_eq_true, if_false]
  cases hd : (stripLeadSlash u.Path).dropWhile (fun x => x != '/') with
  | nil =>
      rw [splitAtChar_eq_none hd]
      have htw : (stripLeadSlash u.Path).takeWhile (fun x => x != '/') =
          stripLeadSlash u.Path := by
        have h := List.takeWhile_append_dropWhile
          (p := fun x => x != '/') (l := stripLeadSlash u.Path)
        rw [hd, List.append_nil] at h
        exact h
      exact ⟨by simp [firstSeg, htw], by simp [afterFirstSeg, hd]⟩
  | cons z r =>
      rw [splitAtChar_eq_some hd]
      exact ⟨by simp [firstSeg], by simp [afterFirstSeg, hd]⟩

/-- Witness for C5 at
    `https://account.service.example.com/myshare/dir/file.txt`. -/
theorem C5_named_path_segmentation_witness :
    (NewFileURLParts
       ⟨str "https", str "account.service.example.com",
        str "/myshare/dir/file.txt", []⟩).ShareName = str "myshare" ∧
    (NewFileURLParts
       ⟨str "https", str "account.service.example.com",
        str "/myshare/dir/file.txt", []⟩).DirectoryOrFilePath =
      str "dir/file.txt" :=
  C5_named_path_segmentation
    ⟨str "https", str "account.service.example.com",
     str "/myshare/dir/file.txt", []⟩ (by decide) (by decide)

/-- Claim C8: parsing is total with empty-string defaults — an empty path
    yields empty `ShareName`, `DirectoryOrFilePath` and `accountName`,
    and rebuilding gives an empty path again; moreover every value list
    in a parsed query map is non-empty, so the one indexing operation of
    the parser (`snapshotStr[0]`) can never fail, for any raw query. -/
theorem C8_totality :
    (∀ sch host rq : List Char,
      (NewFileURLParts ⟨sch, host, [], rq⟩).ShareName = [] ∧
      (NewFileURLParts ⟨sch, host, [], rq⟩).DirectoryOrFilePath = [] ∧
      (NewFileURLParts ⟨sch, host, [], rq⟩).accountName = [] ∧
      (FileURLParts.URL (NewFileURLParts ⟨sch, host, [], rq⟩)).Path = []) ∧
    (∀ (raw : List Char) (e : List Char × List (List Char)),
      e ∈ goQuery raw → e.2 ≠ []) := by
  constructor
  · intro sch host rq
    have hpp : parsePath (isIPEndpointStyle host) [] = ([], [], []) := by
      unfold parsePath
      simp
    refine ⟨?_, ?_, ?_, ?_⟩ <;>
      simp [NewFileURLParts, hpp, FileURLParts.URL]
  · intro raw e he
    exact foldl_insertPair_values_nonempty (parseQuery raw) []
      (by intro e he; simp at he) e he

/-- Witness for C8: the non-empty-values guarantee applied at the
    concrete query `a=b` and its only map entry. -/
theorem C8_totality_witness :
    ((str "a", [str "b"]) : List Char × List (List Char)).2 ≠ [] :=
  C8_totality.2 (str "a=b") (str "a", [str "b"]) (by decide)

/-- Claim C10: a named-host path consisting of one segment and a trailing
    slash parses exactly like the same path without the trailing slash —
    `ShareName` is the segment, `DirectoryOrFilePath` is empty — and the
    rebuilt path carries no trailing slash, so parse/build cannot
    distinguish the two inputs. -/
theorem C10_trailing_slash_collapse (sch host rq seg : List Char)
    (hh : isIPEndpointStyle host = false) (h1 : seg ≠ [])
    (h2 : '/' ∉ seg) :
    NewFileURLParts ⟨sch, host, '/' :: (seg ++ ['/']), rq⟩ =
      NewFileURLParts ⟨sch, host, '/' :: seg, rq⟩ ∧
    (NewFileURLParts ⟨sch, host, '/' :: (seg ++ ['/']), rq⟩).ShareName =
      seg ∧
    (NewFileURLParts
       ⟨sch, host, '/' :: (seg ++ ['/']), rq⟩).DirectoryOrFilePath = [] ∧
    (FileURLParts.URL
       (NewFileURLParts ⟨sch, host, '/' :: (seg ++ ['/']), rq⟩)).Path =
      '/' :: seg := by
  have hs1 : splitAtChar? '/' (seg ++ '/' :: []) = some (seg, []) :=
    splitAtChar_append_cons [] h2
  have hs2 : splitAtChar? '/' seg = none := splitAtChar_of_not_mem h2
  have hp1 : parsePath false ('/' :: (seg ++ ['/'])) = ([], seg, []) := by
    unfold parsePath
    rw [if_neg (by simp)]
    simp only [Bool.false_eq_true, if_false]
    show (match splitAtChar? '/' (seg ++ ['/']) with
          | none => ([], seg ++ ['/'], [])
          | some (s, d) => (([] : List Char), s, d)) = ([], seg, [])
    rw [show (seg ++ ['/'] : List Char) = seg ++ '/' :: [] from rfl, hs1]
  have hp2 : parsePath false ('/' :: seg) = ([], seg, []) := by
    unfold parsePath
    rw [if_neg (by simp)]
    simp only [Bool.false_eq_true, if_false]
    show (match splitAtChar? '/' seg with
          | none => ([], seg, [])
          | some (s, d) => (([] : List Char), s, d)) = ([], seg, [])
    rw [hs2]
  refine ⟨?_, ?_, ?_, ?_⟩
  · simp only [NewFileURLParts, hh, hp1, hp2]
  · simp only [NewFileURLParts, hh, hp1]
  · simp only [NewFileURLParts, hh, hp1]
  · simp only [NewFileURLParts, FileURLParts.URL, hh, hp1]
    simp [h1]

/-- Witness for C10 at `https://account.service.example.com/myshare/?a=b`
    versus the same URL with path `/myshare`. -/
theorem C10_trailing_slash_collapse_witness :
    NewFileURLParts
      ⟨str "https", str "account.service.example.com",
       '/' :: (str "myshare" ++ ['/']), str "a=b"⟩ =
      NewFileURLParts
        ⟨str "https", str "account.service.example.com",
         '/' :: str "myshare", str "a=b"⟩ ∧
    (NewFileURLParts
       ⟨str "https", str "account.service.example.com",
        '/' :: (str "myshare" ++ ['/']), str "a=b"⟩).ShareName =
      str "myshare" ∧
    (NewFileURLParts
       ⟨str "https", str "account.service.example.com",
        '/' :: (str "myshare" ++ ['/']), str "a=b"⟩).DirectoryOrFilePath =
      [] ∧
    (FileURLParts.URL
       (NewFileURLParts
         ⟨str "https", str "account.service.example.com",
          '/' :: (str "myshare" ++ ['/']), str "a=b"⟩)).Path =
      '/' :: str "myshare" :=
  C10_trailing_slash_collapse (str "https")
    (str "account.service.example.com") (str "a=b") (str "myshare")
    (by decide) (by decide) (by decide)

end AzFile
